import Mathlib

/-
Shallow embedding of the model-download pipeline of
`colab_model_downloader.py` (class `ModelDownloader`).

Modelling conventions:
* File sizes are integers measured in thousandths of a GB (milli-GB).  The
  source computes `size_gb = st_size / (1024**3)` in floating point and
  compares against the literal `0.2`; the model works at milli-GB
  granularity, where `0.2 GB` is exactly `200`.  Every size the claims
  mention (`0.2`, `0.79`, `0.8`, `1.0`, `1.2`, `1.21` GB) is an exact
  integer of milli-GB, and at each of them the float comparison of the
  source and the integer comparison of the model agree.
* The filesystem is an association list from path strings to sizes.
* Network behaviour is an oracle: for each URL, the list of per-attempt
  outcomes a call to `download_file` will observe (one element per attempt,
  so the list length plays the role of `max_retries`), and the content of
  the archive that any successful download of that URL yields.
* Exceptions raised by `tarfile.open` / `zipfile.ZipFile` / `gzip.open`
  are modelled by the archive-content oracle returning `none`.
-/

namespace ModelDownloader

/-- A filesystem: association list mapping a path to the size (in milli-GB)
of the regular file stored there. -/
abbrev FS := List (String × ℤ)

/-- Look up the size of the file at path `p`, `none` if no file exists. -/
def fsGet (fs : FS) (p : String) : Option ℤ :=
  match fs with
  | [] => none
  | (q, s) :: rest => if q = p then some s else fsGet rest p

/-- Create or overwrite the file at path `p` with size `s`
(`open(filepath, 'wb')` plus writing the stream). -/
def fsSet (fs : FS) (p : String) (s : ℤ) : FS :=
  match fs with
  | [] => [(p, s)]
  | (q, t) :: rest => if q = p then (p, s) :: rest else (q, t) :: fsSet rest p s

/-- Delete the file at path `p` (`Path.unlink`). -/
def fsRemove (fs : FS) (p : String) : FS :=
  match fs with
  | [] => []
  | (q, t) :: rest => if q = p then fsRemove rest p else (q, t) :: fsRemove rest p

/-- Rename `src` to `dst` (`Path.rename`); no-op if `src` does not exist. -/
def fsRename (fs : FS) (src dst : String) : FS :=
  match fsGet fs src with
  | none => fs
  | some s => fsSet (fsRemove fs src) dst s

/-- Python's `abs` applied to a size difference. -/
def absI (q : ℤ) : ℤ := if q < 0 then -q else q

/-- The `0.2` GB tolerance of `verify_file`, in milli-GB. -/
def tolerance : ℤ := 200

/-- `ModelDownloader.check_disk_space`: the `statvfs` free-space query is
modelled by `freeMGB` (`none` = the query raises, and the except branch
returns `True`, i.e. the check fails open). -/
def check_disk_space (freeMGB : Option ℤ) (required_mgb : ℤ) : Bool :=
  match freeMGB with
  | none => true
  | some free => free ≥ required_mgb

/-- The size check of `verify_file`: `if expected_size_gb and
abs(size_gb - expected_size_gb) > 0.2: return False`, i.e. the check is a
no-op when the declared size is absent or zero (falsy). -/
def sizeOk (size : ℤ) (expected_size : Option ℤ) : Bool :=
  match expected_size with
  | none => true
  | some e => if e ≠ 0 ∧ absI (size - e) > tolerance then false else true

/-- `ModelDownloader.verify_file(filepath, expected_size_gb)`:
fails if the path does not exist; if `expected_size_gb` is truthy
(present and nonzero) and the actual size differs from it by more than
`0.2` GB, fails; otherwise passes. -/
def verify_file (fs : FS) (filepath : String) (expected_size : Option ℤ) : Bool :=
  match fsGet fs filepath with
  | none => false
  | some size => sizeOk size expected_size

/-- Outcome the network produces for one attempt of `download_file`:
either a transport error (`requests` exception or `IOError`, raised at any
point of the attempt), or a completed stream that leaves a file of the given
size at the destination. -/
inductive AttemptOutcome
  | err
  | ok (size : ℤ)
deriving DecidableEq, Repr

/-- `ModelDownloader.download_file(url, filepath, chunk_size, max_retries)`.
`outcomes` lists the network's behaviour for each of the `max_retries`
attempts (so `outcomes.length` plays the role of `max_retries`).
Returns `(success, filesystem, attempts performed)`.

Per attempt, following the source:
* a completed stream writes the file (`open(filepath, 'wb')` truncates any
  previous content); if its size is `> 0` the function returns `True`;
  if the size is `0` the file is left in place and the attempt loop
  continues (the empty-file branch performs no `unlink`);
* a transport error deletes the destination file if it exists and the loop
  continues; after the last attempt the function returns `False`. -/
def download_file (outcomes : List AttemptOutcome) (fs : FS) (filepath : String) :
    Bool × FS × ℕ :=
  match outcomes with
  | [] => (false, fs, 0)
  | o :: rest =>
    match o with
    | .ok size =>
      let fs' := fsSet fs filepath size
      if size > 0 then (true, fs', 1)
      else
        let r := download_file rest fs' filepath
        (r.1, r.2.1, r.2.2 + 1)
    | .err =>
      let fs' := fsRemove fs filepath
      let r := download_file rest fs' filepath
      (r.1, r.2.1, r.2.2 + 1)

/-- Is `needle` an initial segment of `hay`? (used to build Python's `in`
substring test). -/
def strHasPre (needle hay : List Char) : Bool :=
  match needle, hay with
  | [], _ => true
  | _ :: _, [] => false
  | a :: as, b :: bs => a == b && strHasPre as bs

/-- Does `needle` occur as a contiguous run somewhere in `hay`? -/
def strHasSubAux (needle : List Char) : List Char → Bool
  | [] => strHasPre needle []
  | c :: rest => strHasPre needle (c :: rest) || strHasSubAux needle rest

/-- Python's `sub in s` substring test. -/
def hasSub (s sub : String) : Bool := strHasSubAux sub.data s.data

/-- `pathlib`'s suffix computation, on the reversed character list.
`acc` holds the characters already passed over, in original order.  A dot
found at the last position of the name (`acc = []`) or at the first position
(`rest = []`) yields no suffix, matching `PurePath.suffix`. -/
def pySuffixAux : List Char → List Char → List Char
  | _, [] => []
  | acc, c :: rest =>
    if c = '.' then (if rest = [] ∨ acc = [] then [] else '.' :: acc)
    else pySuffixAux (c :: acc) rest

/-- `PurePath(name).suffix`: the final component's extension, from the last
dot; empty when the name has no dot, starts with its only dot, or ends in a
dot. -/
def pySuffix (name : String) : String := String.mk (pySuffixAux [] name.data.reverse)

/-- `PurePath(name).stem`: the name with `pySuffix` removed. -/
def pyStem (name : String) : String := name.dropRight (pySuffix name).length

/-- The check applied to each archive member in `extract_archive`:
`member.name.startswith('/') or '..' in member.name`. -/
def suspiciousName (m : String) : Bool :=
  strHasPre ['/'] m.data || hasSub m ("..")

/-- Archive kind chosen by `extract_archive`'s suffix dispatch. -/
inductive ArchiveKind
  | tar
  | zip
  | gz
  | unknown
deriving DecidableEq, Repr

/-- The dispatch of `extract_archive` on the archive file's name:
tar when `filepath.suffix == '.tar' or '.tar.' in filepath.name`, else zip
when the suffix is `.zip`, else gzip when it is `.gz`, else unknown. -/
def archiveKind (name : String) : ArchiveKind :=
  if pySuffix name = (".tar") ∨ hasSub name (".tar.") = true then .tar
  else if pySuffix name = (".zip") then .zip
  else if pySuffix name = (".gz") then .gz
  else .unknown

/-- Content of the file a URL serves, as seen by the extractor:
`members` is the member list `tarfile`/`zipfile` reads from it (`none` when
opening or reading the archive raises, which the except branch of
`extract_archive` turns into `False`); `gzData` is the decompressed size of
the stream `gzip.open` yields (`none` when that raises). -/
structure ArchiveData where
  members : Option (List (String × ℤ))
  gzData : Option ℤ
deriving Repr

/-- Result of `extract_archive`: the returned boolean, the filesystem after
the call, the names the unpack call (`extractall`, or the single gzip
output) actually materialized, and the names the member-check loop printed
as suspicious.  The source's check loop only prints and `continue`s inside
the loop, so it never removes a member from the extraction set. -/
structure ExtractResult where
  ok : Bool
  fs : FS
  extracted : List String
  warned : List String
deriving Repr, DecidableEq

/-- `ModelDownloader.extract_archive(filepath, extract_dir)`.
`contents` is the archive content the downloaded file holds.  The tar and
zip branches iterate over all members printing a warning for suspicious
names, then call `extractall(path=extract_dir)`, which unpacks every member;
the gzip branch decompresses into `extract_dir / filepath.stem`; an
unrecognized name returns `False` with nothing written.  Member output
paths are recorded as the unresolved join `extract_dir ++ "/" ++ member`. -/
def extract_archive (contents : ArchiveData) (name : String) (extract_dir : String)
    (fs : FS) : ExtractResult :=
  match archiveKind name with
  | .tar =>
    match contents.members with
    | none => ⟨false, fs, [], []⟩
    | some ms =>
      ⟨true, ms.foldl (fun a m => fsSet a (extract_dir ++ ("/") ++ m.1) m.2) fs,
        ms.map Prod.fst, (ms.map Prod.fst).filter suspiciousName⟩
  | .zip =>
    match contents.members with
    | none => ⟨false, fs, [], []⟩
    | some ms =>
      ⟨true, ms.foldl (fun a m => fsSet a (extract_dir ++ ("/") ++ m.1) m.2) fs,
        ms.map Prod.fst, (ms.map Prod.fst).filter suspiciousName⟩
  | .gz =>
    match contents.gzData with
    | none => ⟨false, fs, [], []⟩
    | some s =>
      ⟨true, fsSet fs (extract_dir ++ ("/") ++ pyStem name) s, [pyStem name], []⟩
  | .unknown => ⟨false, fs, [], []⟩

/-- One entry of `self.models[category]["files"]`: the final file name (the
dict key) and its configuration dict.  `size_mgb` is the `"size_gb"` value
in milli-GB (`none` models an absent key); `extract` and `required` default
to `False` via `.get`. -/
structure FileEntry where
  filename : String
  url : String
  size_mgb : Option ℤ
  extract : Bool
  required : Bool
deriving Repr, DecidableEq

/-- One entry of `self.models`: the category directory and its files. -/
structure Category where
  dir : String
  files : List FileEntry
deriving Repr

/-- The ambient world a run observes: free disk space in milli-GB (`none` =
the `statvfs` query raises), and per URL the network's per-attempt
behaviour and the archive content a completed download of that URL holds. -/
structure World where
  freeMGB : Option ℤ
  net : String → List AttemptOutcome
  archive : String → ArchiveData

/-- `filepath.with_suffix(filepath.suffix + ".tmp")` on the final path
component: appending `.tmp` to the file name (replacing the old suffix by
itself plus `.tmp`). -/
def tempName (filename : String) : String := filename ++ (".tmp")

/-- Terminal state of one entry of the per-file loop of
`download_model_category`: the three branches that leave the entry
successful (already valid, downloaded-and-renamed, extracted) and the three
failure branches of the source. -/
inductive EntryStatus
  | okExists
  | okDownloaded
  | okExtracted
  | failDownload
  | failVerify
  | failExtract
deriving DecidableEq, Repr

/-- Did the entry end in one of the three failure branches (the branches
that set `success = False` and, when required, `required_success = False`)? -/
def entryFailed : EntryStatus → Bool
  | .failDownload => true
  | .failVerify => true
  | .failExtract => true
  | _ => false

/-- The body of the per-file loop of `download_model_category` for one
entry: skip if the final path already verifies; otherwise download to the
temporary path, verify it, then extract (deleting the archive only on
extraction success) or rename to the final path.
Returns the terminal status, the filesystem after the entry, and the number
of download attempts performed (0 when the entry was skipped). -/
def process_entry (w : World) (dir : String) (e : FileEntry) (fs : FS) :
    EntryStatus × FS × ℕ :=
  let filepath := dir ++ ("/") ++ e.filename
  if verify_file fs filepath e.size_mgb then (.okExists, fs, 0)
  else
    let temppath := dir ++ ("/") ++ tempName e.filename
    let dl := download_file (w.net e.url) fs temppath
    if dl.1 then
      if verify_file dl.2.1 temppath e.size_mgb then
        if e.extract then
          let ex := extract_archive (w.archive e.url) (tempName e.filename) dir dl.2.1
          if ex.ok then (.okExtracted, fsRemove ex.fs temppath, dl.2.2)
          else (.failExtract, ex.fs, dl.2.2)
        else (.okDownloaded, fsRename dl.2.1 temppath filepath, dl.2.2)
      else (.failVerify, dl.2.1, dl.2.2)
    else (.failDownload, dl.2.1, dl.2.2)

/-- The per-file loop of `download_model_category`, threading the
`required_success` flag exactly as the source does (it is cleared whenever a
failure branch runs for an entry with `required=True` and never set back).
Also records, per entry, the terminal status and download attempts. -/
def run_entries (w : World) (dir : String) (files : List FileEntry) (req : Bool)
    (fs : FS) : Bool × FS × List (FileEntry × EntryStatus × ℕ) :=
  match files with
  | [] => (req, fs, [])
  | e :: rest =>
    let r := process_entry w dir e fs
    let req' := req && !(e.required && entryFailed r.1)
    let z := run_entries w dir rest req' r.2.1
    (z.1, z.2.1, (e, r.1, r.2.2) :: z.2.2)

/-- Result of `download_model_category`: the returned `required_success`
boolean, the filesystem after the call, and the recorded per-entry
outcomes. -/
structure CategoryResult where
  required_success : Bool
  fs : FS
  outcomes : List (FileEntry × EntryStatus × ℕ)

/-- `ModelDownloader.download_model_category(category)` for a category
value: sums the declared sizes (`info.get("size_gb", 0)`), requires free
space for that total plus a 1 GB buffer (returning `False` before touching
any entry when the check fails), then runs the per-file loop and returns
`required_success`. -/
def download_model_category (w : World) (c : Category) (fs : FS) : CategoryResult :=
  let total := (c.files.map (fun e => e.size_mgb.getD 0)).sum
  if check_disk_space w.freeMGB (total + 1000) = false then ⟨false, fs, []⟩
  else
    let z := run_entries w c.dir c.files true fs
    ⟨z.1, z.2.1, z.2.2⟩

/-- The per-category loop of `download_all_models`, threading the
`all_required_success` flag and recording each category's returned
verdict. -/
def run_categories (w : World) (cats : List Category) (ok : Bool) (fs : FS) :
    Bool × FS × List Bool :=
  match cats with
  | [] => (ok, fs, [])
  | c :: rest =>
    let r := download_model_category w c fs
    let z := run_categories w rest (ok && r.required_success) r.fs
    (z.1, z.2.1, r.required_success :: z.2.2)

/-- `ModelDownloader.download_all_models()` over a catalog value: sums all
declared sizes, requires free space for that total plus a 2 GB buffer
(returning `False` before running any category when the check fails), then
runs every category and returns the conjunction of their verdicts.
Returns `(all_required_success, filesystem, per-category verdicts)`. -/
def download_all_models (w : World) (cats : List Category) (fs : FS) :
    Bool × FS × List Bool :=
  let total := (cats.map (fun c => (c.files.map (fun e => e.size_mgb.getD 0)).sum)).sum
  if check_disk_space w.freeMGB (total + 2000) = false then (false, fs, [])
  else run_categories w cats true fs

/-! ### Concrete scenarios used by witnesses and counterexamples -/

/-- Members of a tar archive holding a traversal member and a safe member. -/
def escapeMembers : List (String × ℤ) := [(("../../escape.txt"), 1), (("safe.txt"), 1)]

/-- World for the idempotence counterexample: every URL serves, on its one
attempt, a 3.5 GB file whose tar content is a single 3.3 GB member
`data.bin`. -/
def c3world : World where
  freeMGB := none
  net := fun _ => [.ok 3500]
  archive := fun _ => ⟨some [(("data.bin"), 3300)], none⟩

/-- An extract-marked entry whose temporary name `params.tar.tmp` still
contains `.tar.`, so its extraction succeeds. -/
def c3entry : FileEntry := ⟨("params.tar"), ("u"), some 3500, true, true⟩

/-- Single-entry category for the idempotence counterexample. -/
def c3cat : Category := ⟨("d"), [c3entry]⟩

/-- World serving a single good 0.5 GB download on the first attempt. -/
def goodWorld : World where
  freeMGB := none
  net := fun _ => [.ok 500]
  archive := fun _ => ⟨none, none⟩

/-- A plain (non-extract) required entry with a declared 0.5 GB size. -/
def plainEntry : FileEntry := ⟨("model.pt"), ("u"), some 500, false, true⟩

/-- An entry with no declared size (`size_gb` key absent). -/
def noSizeEntry : FileEntry := ⟨("model.pt"), ("u"), none, false, true⟩

/-- Single-entry category holding the plain (non-extract) entry. -/
def plainCat : Category := ⟨("d"), [plainEntry]⟩

/-- World whose free-space query reports zero free milli-GB. -/
def noSpaceWorld : World where
  freeMGB := some 0
  net := fun _ => []
  archive := fun _ => ⟨none, none⟩

/-- Category holding a single optional entry, used to show the space
preflight failing a category that has no required entry at all. -/
def optOnlyCat : Category := ⟨("d"), [⟨("opt.pt"), ("u"), none, false, false⟩]⟩

/-- World where the URL `bad` always fails transport (three attempts) and
every other URL serves a good 0.5 GB file on the first attempt. -/
def mixedWorld : World where
  freeMGB := none
  net := fun u => if u = ("bad") then [.err, .err, .err] else [.ok 500]
  archive := fun _ => ⟨none, none⟩

/-- A required entry whose source always fails. -/
def badReqEntry : FileEntry := ⟨("a.pt"), ("bad"), some 500, false, true⟩

/-- A required entry whose source succeeds. -/
def goodReqEntry : FileEntry := ⟨("b.pt"), ("good"), some 500, false, true⟩

/-- An optional entry whose source always fails. -/
def badOptEntry : FileEntry := ⟨("c.pt"), ("bad"), some 500, false, false⟩

/-- Category with one always-failing required entry followed by one
always-succeeding required entry. -/
def mixedCat : Category := ⟨("d"), [badReqEntry, goodReqEntry]⟩

/-- Category where only an optional entry fails. -/
def optFailCat : Category := ⟨("e"), [goodReqEntry, badOptEntry]⟩

/-- Two-category catalog: the first category has a failing required entry,
the second succeeds. -/
def twoCats : List Category := [⟨("d1"), [badReqEntry]⟩, ⟨("d2"), [goodReqEntry]⟩]

/-! ### Helper lemmas -/

theorem download_file_cons_err (rest : List AttemptOutcome) (fs : FS) (p : String) :
    download_file (.err :: rest) fs p =
      ((download_file rest (fsRemove fs p) p).1,
       (download_file rest (fsRemove fs p) p).2.1,
       (download_file rest (fsRemove fs p) p).2.2 + 1) := rfl

theorem download_file_cons_ok_pos (s : ℤ) (rest : List AttemptOutcome) (fs : FS)
    (p : String) (hs : 0 < s) :
    download_file (.ok s :: rest) fs p = (true, fsSet fs p s, 1) := by
  simp [download_file, hs]

theorem download_file_cons_ok_zero (rest : List AttemptOutcome) (fs : FS) (p : String) :
    download_file (.ok 0 :: rest) fs p =
      ((download_file rest (fsSet fs p 0) p).1,
       (download_file rest (fsSet fs p 0) p).2.1,
       (download_file rest (fsSet fs p 0) p).2.2 + 1) := by
  simp [download_file]

theorem verify_file_some (fs : FS) (p : String) (s : ℤ) (exp : Option ℤ)
    (hs : fsGet fs p = some s) :
    verify_file fs p exp = sizeOk s exp := by
  unfold verify_file
  rw [hs]

theorem fsGet_fsSet_self (fs : FS) (p : String) (s : ℤ) :
    fsGet (fsSet fs p s) p = some s := by
  induction fs with
  | nil => simp [fsGet, fsSet]
  | cons h t ih =>
    obtain ⟨q, v⟩ := h
    by_cases hq : q = p <;> simp [fsGet, fsSet, hq, ih]

theorem fsGet_fsSet_ne (fs : FS) (p p' : String) (s : ℤ) (h : p ≠ p') :
    fsGet (fsSet fs p s) p' = fsGet fs p' := by
  induction fs with
  | nil => simp [fsGet, fsSet, h]
  | cons hd t ih =>
    obtain ⟨q, v⟩ := hd
    by_cases hq : q = p
    · subst hq
      simp [fsGet, fsSet, h]
    · simp [fsGet, fsSet, hq, ih]

theorem fsGet_fsRemove_self (fs : FS) (p : String) :
    fsGet (fsRemove fs p) p = none := by
  induction fs with
  | nil => simp [fsGet, fsRemove]
  | cons h t ih =>
    obtain ⟨q, v⟩ := h
    by_cases hq : q = p <;> simp [fsGet, fsRemove, hq, ih]

theorem fsGet_fsRename_dst (fs : FS) (src dst : String) (s : ℤ)
    (h : fsGet fs src = some s) :
    fsGet (fsRename fs src dst) dst = some s := by
  unfold fsRename
  rw [h, fsGet_fsSet_self]

theorem verify_file_iff (fs : FS) (p : String) (exp : Option ℤ) :
    verify_file fs p exp = true ↔
      ∃ s, fsGet fs p = some s ∧ sizeOk s exp = true := by
  unfold verify_file
  cases h : fsGet fs p <;> simp

theorem download_file_success (l : List AttemptOutcome) (fs : FS) (p : String)
    (h : (download_file l fs p).1 = true) :
    ∃ s, 0 < s ∧ fsGet (download_file l fs p).2.1 p = some s := by
  induction l generalizing fs with
  | nil => simp [download_file] at h
  | cons o rest ih =>
    cases o with
    | ok size =>
      by_cases hs : size > 0
      · refine ⟨size, hs, ?_⟩
        simp only [download_file, if_pos hs]
        exact fsGet_fsSet_self fs p size
      · simp only [download_file, if_neg hs] at h ⊢
        exact ih (fsSet fs p size) h
    | err =>
      simp only [download_file] at h ⊢
      exact ih (fsRemove fs p) h

theorem pySuffixAux_tmp (rest : List Char) :
    pySuffixAux [] ('p' :: 'm' :: 't' :: '.' :: rest) =
      if rest = [] then [] else ['.', 't', 'm', 'p'] := by
  cases rest with
  | nil => rfl
  | cons c cs => rfl

theorem pySuffix_tempName (n : String) :
    pySuffix (tempName n) = (".tmp") ∨ pySuffix (tempName n) = ("") := by
  obtain ⟨l⟩ := n
  have hdata : (tempName (String.mk l)).data = l ++ ['.', 't', 'm', 'p'] := rfl
  unfold pySuffix
  rw [hdata, List.reverse_append]
  have hrev : List.reverse ['.', 't', 'm', 'p'] = ['p', 'm', 't', '.'] := rfl
  rw [hrev]
  rw [show ['p', 'm', 't', '.'] ++ l.reverse =
      'p' :: 'm' :: 't' :: '.' :: l.reverse from rfl]
  rw [pySuffixAux_tmp]
  by_cases hl : l.reverse = []
  · right
    rw [if_pos hl]
  · left
    rw [if_neg hl]

theorem run_entries_req (w : World) (dir : String) (files : List FileEntry)
    (req : Bool) (fs : FS) :
    (run_entries w dir files req fs).1 =
      (req && (run_entries w dir files req fs).2.2.all
        (fun p => !(p.1.required && entryFailed p.2.1))) := by
  induction files generalizing req fs with
  | nil => simp [run_entries]
  | cons e rest ih =>
    simp only [run_entries, List.all_cons]
    rw [ih]
    cases req <;> cases e.required <;>
      cases entryFailed (process_entry w dir e fs).1 <;> simp

theorem run_entries_map_fst (w : World) (dir : String) (files : List FileEntry)
    (req : Bool) (fs : FS) :
    (run_entries w dir files req fs).2.2.map Prod.fst = files := by
  induction files generalizing req fs with
  | nil => simp [run_entries]
  | cons e rest ih => simp [run_entries, ih]

theorem run_categories_conj (w : World) (cats : List Category) (ok : Bool)
    (fs : FS) :
    (run_categories w cats ok fs).1 =
      (ok && (run_categories w cats ok fs).2.2.all id) := by
  induction cats generalizing ok fs with
  | nil => simp [run_categories]
  | cons c rest ih =>
    simp only [run_categories, List.all_cons]
    rw [ih]
    cases ok <;> cases (download_model_category w c fs).required_success <;> simp

theorem extract_archive_fail_fs (contents : ArchiveData) (name dir : String)
    (fs : FS) :
    (extract_archive contents name dir fs).ok = false →
    (extract_archive contents name dir fs).fs = fs := by
  unfold extract_archive
  cases archiveKind name
  · cases contents.members
    · intro _
      rfl
    · intro h
      simp at h
  · cases contents.members
    · intro _
      rfl
    · intro h
      simp at h
  · cases contents.gzData
    · intro _
      rfl
    · intro h
      simp at h
  · intro _
    rfl

theorem tempPath_ne_filePath (d f : String) :
    d ++ ("/") ++ tempName f ≠ d ++ ("/") ++ f := by
  intro h
  have hlen := congrArg String.length h
  simp only [String.length_append, tempName] at hlen
  have h4 : (".tmp" : String).length = 4 := rfl
  omega

theorem fsGet_fsRemove_ne (fs : FS) (p p' : String) (h : p ≠ p') :
    fsGet (fsRemove fs p) p' = fsGet fs p' := by
  induction fs with
  | nil => rfl
  | cons hd t ih =>
    obtain ⟨q, v⟩ := hd
    by_cases hq : q = p
    · subst hq
      simp [fsGet, fsRemove, ih, h]
    · simp [fsGet, fsRemove, hq, ih]

theorem fsGet_fsRename_other (fs : FS) (src dst p : String)
    (hsrc : p ≠ src) (hdst : p ≠ dst) :
    fsGet (fsRename fs src dst) p = fsGet fs p := by
  unfold fsRename
  cases h : fsGet fs src
  · rfl
  · rw [fsGet_fsSet_ne _ _ _ _ (Ne.symm hdst), fsGet_fsRemove_ne _ _ _ (Ne.symm hsrc)]

theorem verify_file_congr (fs1 fs2 : FS) (p : String) (exp : Option ℤ)
    (h : fsGet fs1 p = fsGet fs2 p) :
    verify_file fs1 p exp = verify_file fs2 p exp := by
  unfold verify_file
  rw [h]

theorem strAppend_cancel_left (a x y : String) (h : a ++ x = a ++ y) : x = y := by
  obtain ⟨la⟩ := a
  obtain ⟨lx⟩ := x
  obtain ⟨ly⟩ := y
  have hd : la ++ lx = la ++ ly := congrArg String.data h
  rw [List.append_cancel_left hd]

theorem path_ne_of_name_ne (d x y : String) (h : x ≠ y) :
    d ++ ("/") ++ x ≠ d ++ ("/") ++ y :=
  fun hc => h (strAppend_cancel_left (d ++ ("/")) x y hc)

theorem download_file_cons_ok_nonpos (s : ℤ) (rest : List AttemptOutcome) (fs : FS)
    (p : String) (hs : ¬ s > 0) :
    download_file (.ok s :: rest) fs p =
      ((download_file rest (fsSet fs p s) p).1,
       (download_file rest (fsSet fs p s) p).2.1,
       (download_file rest (fsSet fs p s) p).2.2 + 1) := by
  simp [download_file, hs]

theorem download_file_frame (l : List AttemptOutcome) (fs : FS) (fp p : String)
    (h : p ≠ fp) :
    fsGet (download_file l fs fp).2.1 p = fsGet fs p := by
  induction l generalizing fs with
  | nil => rfl
  | cons o rest ih =>
    cases o with
    | ok s =>
      by_cases hs : s > 0
      · rw [download_file_cons_ok_pos s rest fs fp hs]
        exact fsGet_fsSet_ne _ _ _ _ (Ne.symm h)
      · rw [download_file_cons_ok_nonpos s rest fs fp hs]
        show fsGet (download_file rest (fsSet fs fp s) fp).2.1 p = _
        rw [ih (fsSet fs fp s), fsGet_fsSet_ne _ _ _ _ (Ne.symm h)]
    | err =>
      rw [download_file_cons_err]
      show fsGet (download_file rest (fsRemove fs fp) fp).2.1 p = _
      rw [ih (fsRemove fs fp), fsGet_fsRemove_ne _ _ _ (Ne.symm h)]

theorem process_entry_skip (w : World) (d : String) (e : FileEntry) (fs : FS)
    (hv : verify_file fs (d ++ ("/") ++ e.filename) e.size_mgb = true) :
    process_entry w d e fs = (.okExists, fs, 0) := by
  simp [process_entry, hv]

theorem process_entry_frame (w : World) (d : String) (e : FileEntry) (fs : FS)
    (p : String) (hx : e.extract = false)
    (h1 : p ≠ d ++ ("/") ++ e.filename)
    (h2 : p ≠ d ++ ("/") ++ tempName e.filename) :
    fsGet (process_entry w d e fs).2.1 p = fsGet fs p := by
  by_cases hv : verify_file fs (d ++ ("/") ++ e.filename) e.size_mgb = true
  · rw [process_entry_skip w d e fs hv]
  · by_cases hd : (download_file (w.net e.url) fs
        (d ++ ("/") ++ tempName e.filename)).1 = true
    · by_cases hv2 : verify_file
          (download_file (w.net e.url) fs (d ++ ("/") ++ tempName e.filename)).2.1
          (d ++ ("/") ++ tempName e.filename) e.size_mgb = true
      · have hr : process_entry w d e fs =
            (.okDownloaded,
             fsRename (download_file (w.net e.url) fs
                 (d ++ ("/") ++ tempName e.filename)).2.1
               (d ++ ("/") ++ tempName e.filename) (d ++ ("/") ++ e.filename),
             (download_file (w.net e.url) fs
               (d ++ ("/") ++ tempName e.filename)).2.2) := by
          simp [process_entry, hv, hd, hv2, hx]
        rw [hr]
        show fsGet (fsRename _ _ _) p = _
        rw [fsGet_fsRename_other _ _ _ _ h2 h1]
        exact download_file_frame _ _ _ _ h2
      · have hr : process_entry w d e fs =
            (.failVerify,
             (download_file (w.net e.url) fs
               (d ++ ("/") ++ tempName e.filename)).2.1,
             (download_file (w.net e.url) fs
               (d ++ ("/") ++ tempName e.filename)).2.2) := by
          simp [process_entry, hv, hd, hv2]
        rw [hr]
        exact download_file_frame _ _ _ _ h2
    · have hr : process_entry w d e fs =
          (.failDownload,
           (download_file (w.net e.url) fs
             (d ++ ("/") ++ tempName e.filename)).2.1,
           (download_file (w.net e.url) fs
             (d ++ ("/") ++ tempName e.filename)).2.2) := by
        simp [process_entry, hv, hd]
      rw [hr]
      exact download_file_frame _ _ _ _ h2

theorem process_entry_success_verifies (w : World) (d : String) (e : FileEntry)
    (fs : FS) (hx : e.extract = false)
    (h : entryFailed (process_entry w d e fs).1 = false) :
    verify_file (process_entry w d e fs).2.1 (d ++ ("/") ++ e.filename)
      e.size_mgb = true := by
  by_cases h1 : verify_file fs (d ++ ("/") ++ e.filename) e.size_mgb = true
  · rw [process_entry_skip w d e fs h1]
    exact h1
  · by_cases h2 : (download_file (w.net e.url) fs
        (d ++ ("/") ++ tempName e.filename)).1 = true
    · by_cases h3 : verify_file
          (download_file (w.net e.url) fs (d ++ ("/") ++ tempName e.filename)).2.1
          (d ++ ("/") ++ tempName e.filename) e.size_mgb = true
      · have hr : process_entry w d e fs =
            (.okDownloaded,
             fsRename (download_file (w.net e.url) fs
                 (d ++ ("/") ++ tempName e.filename)).2.1
               (d ++ ("/") ++ tempName e.filename) (d ++ ("/") ++ e.filename),
             (download_file (w.net e.url) fs
               (d ++ ("/") ++ tempName e.filename)).2.2) := by
          simp [process_entry, h1, h2, h3, hx]
        rw [hr]
        obtain ⟨s, hsget, hsz⟩ := (verify_file_iff _ _ _).mp h3
        show verify_file (fsRename _ _ _) _ _ = true
        rw [verify_file_some _ _ s _ (fsGet_fsRename_dst _ _ _ _ hsget)]
        exact hsz
      · have hst : (process_entry w d e fs).1 = .failVerify := by
          simp [process_entry, h1, h2, h3]
        rw [hst] at h
        simp [entryFailed] at h
    · have hst : (process_entry w d e fs).1 = .failDownload := by
        simp [process_entry, h1, h2]
      rw [hst] at h
      simp [entryFailed] at h

theorem run_entries_cons (w : World) (d : String) (a : FileEntry)
    (rest : List FileEntry) (req : Bool) (fs : FS) :
    run_entries w d (a :: rest) req fs =
      ((run_entries w d rest
          (req && !(a.required && entryFailed (process_entry w d a fs).1))
          (process_entry w d a fs).2.1).1,
       (run_entries w d rest
          (req && !(a.required && entryFailed (process_entry w d a fs).1))
          (process_entry w d a fs).2.1).2.1,
       (a, (process_entry w d a fs).1, (process_entry w d a fs).2.2) ::
         (run_entries w d rest
            (req && !(a.required && entryFailed (process_entry w d a fs).1))
            (process_entry w d a fs).2.1).2.2) := rfl

theorem run_entries_frame (w : World) (d : String) (files : List FileEntry)
    (req : Bool) (fs : FS) (p : String)
    (hx : ∀ e ∈ files, e.extract = false)
    (hp : ∀ e ∈ files, p ≠ d ++ ("/") ++ e.filename ∧
      p ≠ d ++ ("/") ++ tempName e.filename) :
    fsGet (run_entries w d files req fs).2.1 p = fsGet fs p := by
  induction files generalizing req fs with
  | nil => rfl
  | cons a rest ih =>
    rw [run_entries_cons]
    show fsGet (run_entries w d rest _ (process_entry w d a fs).2.1).2.1 p = _
    rw [ih _ _ (fun e he => hx e (List.mem_cons_of_mem a he))
      (fun e he => hp e (List.mem_cons_of_mem a he))]
    exact process_entry_frame w d a fs p (hx a (List.mem_cons_self a rest))
      (hp a (List.mem_cons_self a rest)).1 (hp a (List.mem_cons_self a rest)).2

theorem run_entries_verified (w : World) (d : String) (files : List FileEntry)
    (req : Bool) (fs : FS)
    (hx : ∀ e ∈ files, e.extract = false)
    (hdisj : files.Pairwise
      (fun a b => b.filename ≠ a.filename ∧ tempName b.filename ≠ a.filename))
    (hok : ∀ p ∈ (run_entries w d files req fs).2.2, entryFailed p.2.1 = false) :
    ∀ e ∈ files, verify_file (run_entries w d files req fs).2.1
      (d ++ ("/") ++ e.filename) e.size_mgb = true := by
  induction files generalizing req fs with
  | nil =>
    intro e he
    cases he
  | cons a rest ih =>
    obtain ⟨hda, hdrest⟩ := List.pairwise_cons.mp hdisj
    rw [run_entries_cons] at hok ⊢
    intro e he
    rcases List.mem_cons.mp he with rfl | he'
    · have hra : entryFailed (process_entry w d e fs).1 = false :=
        hok (e, (process_entry w d e fs).1, (process_entry w d e fs).2.2)
          (List.mem_cons_self _ _)
      have hva := process_entry_success_verifies w d e fs
        (hx e (List.mem_cons_self e rest)) hra
      show verify_file (run_entries w d rest _ (process_entry w d e fs).2.1).2.1
        (d ++ ("/") ++ e.filename) e.size_mgb = true
      rw [verify_file_congr _ (process_entry w d e fs).2.1 _ _
        (run_entries_frame w d rest _ (process_entry w d e fs).2.1 _
          (fun x hxm => hx x (List.mem_cons_of_mem e hxm))
          (fun x hxm =>
            ⟨path_ne_of_name_ne d e.filename x.filename (Ne.symm (hda x hxm).1),
             path_ne_of_name_ne d e.filename (tempName x.filename)
               (Ne.symm (hda x hxm).2)⟩))]
      exact hva
    · exact ih _ (process_entry w d a fs).2.1
        (fun x hxm => hx x (List.mem_cons_of_mem a hxm)) hdrest
        (fun p hp => hok p (List.mem_cons_of_mem _ hp)) e he'

theorem run_entries_all_skip (w : World) (d : String) (files : List FileEntry)
    (req : Bool) (fs : FS)
    (h : ∀ e ∈ files, verify_file fs (d ++ ("/") ++ e.filename) e.size_mgb = true) :
    run_entries w d files req fs =
      (req, fs, files.map (fun e => (e, .okExists, 0))) := by
  induction files generalizing req with
  | nil => rfl
  | cons a rest ih =>
    rw [run_entries_cons, process_entry_skip w d a fs (h a (List.mem_cons_self a rest))]
    rw [ih (req && !(a.required && entryFailed (EntryStatus.okExists, fs, 0).1))
      (fun e he => h e (List.mem_cons_of_mem a he))]
    simp [entryFailed]

theorem download_model_category_run (w : World) (c : Category) (fs : FS)
    (hs : check_disk_space w.freeMGB
      ((c.files.map (fun e => e.size_mgb.getD 0)).sum + 1000) = true) :
    download_model_category w c fs =
      ⟨(run_entries w c.dir c.files true fs).1,
       (run_entries w c.dir c.files true fs).2.1,
       (run_entries w c.dir c.files true fs).2.2⟩ := by
  simp [download_model_category, hs]

theorem download_all_models_run (w : World) (cats : List Category) (fs : FS)
    (hs : check_disk_space w.freeMGB
      ((cats.map (fun c => (c.files.map (fun e => e.size_mgb.getD 0)).sum)).sum + 2000)
        = true) :
    download_all_models w cats fs = run_categories w cats true fs := by
  simp [download_all_models, hs]

/-! ### Claim theorems -/

/-- Claim C1 (evaluation of the code at the failing input): on a tar archive
containing the member `../../escape.txt`, `extract_archive` records the
member as suspicious (prints a warning for exactly this member) yet still
returns success and passes every member, including the traversal member, to
`extractall`, which materializes it under the unresolved join
`target/../../escape.txt` — a path outside the target directory.  The
exclusion the claim requires does not happen. -/
theorem c1_traversal_not_excluded :
    suspiciousName ("../../escape.txt") = true ∧
    (extract_archive ⟨some escapeMembers, none⟩ ("a.tar") ("target") []).warned
      = [("../../escape.txt")] ∧
    (extract_archive ⟨some escapeMembers, none⟩ ("a.tar") ("target") []).ok = true ∧
    (extract_archive ⟨some escapeMembers, none⟩ ("a.tar") ("target") []).extracted
      = [("../../escape.txt"), ("safe.txt")] ∧
    fsGet (extract_archive ⟨some escapeMembers, none⟩ ("a.tar") ("target") []).fs
      ("target/../../escape.txt") = some 1 := by
  decide

/-- Claim C2: the Category Runner downloads to the temporary name
`filename + ".tmp"`; such a name has suffix `.tmp` (or no suffix at all),
so whenever it does not contain `.tar.` the extractor classifies it as an
unknown archive format and returns `False` without unpacking anything. -/
theorem c2_tmp_path_unknown_format (n : String) (a : ArchiveData) (d : String)
    (fs : FS) (h : hasSub (tempName n) (".tar.") = false) :
    archiveKind (tempName n) = .unknown ∧
    extract_archive a (tempName n) d fs = ⟨false, fs, [], []⟩ := by
  have hk : archiveKind (tempName n) = .unknown := by
    unfold archiveKind
    rcases pySuffix_tempName n with h1 | h1 <;> rw [h1, h] <;> decide
  refine ⟨hk, ?_⟩
  unfold extract_archive
  rw [hk]

/-- Witness for C2 at the real catalog's alphafold entry name
`params_model_1.npz` (whose temporary name is `params_model_1.npz.tmp`). -/
theorem c2_witness :
    hasSub (tempName ("params_model_1.npz")) (".tar.") = false ∧
    archiveKind (tempName ("params_model_1.npz")) = .unknown ∧
    extract_archive ⟨some escapeMembers, some 5⟩ (tempName ("params_model_1.npz"))
      ("d") [(("x"), 7)] = ⟨false, [(("x"), 7)], [], []⟩ := by
  refine ⟨by decide, ?_, ?_⟩
  · exact (c2_tmp_path_unknown_format ("params_model_1.npz") ⟨some escapeMembers, some 5⟩
      ("d") [(("x"), 7)] (by decide)).1
  · exact (c2_tmp_path_unknown_format ("params_model_1.npz") ⟨some escapeMembers, some 5⟩
      ("d") [(("x"), 7)] (by decide)).2

/-- Claim C4 (amended): for a source whose every attempt fails (transport
error or a completed zero-byte stream), `download_file` performs exactly
`max_retries` attempts and returns failure; after the final attempt the
destination holds no file when the last attempt was a transport error, but
holds a zero-byte file when the last attempt was a completed zero-byte
stream. -/
theorem c4_retry_exhaustion (l : List AttemptOutcome) (fs : FS) (p : String)
    (h : ∀ o ∈ l, o = .err ∨ o = .ok 0) :
    (download_file l fs p).1 = false ∧
    (download_file l fs p).2.2 = l.length ∧
    (l.getLast? = some .err → fsGet (download_file l fs p).2.1 p = none) ∧
    (∀ s, l.getLast? = some (.ok s) → fsGet (download_file l fs p).2.1 p = some 0) := by
  induction l generalizing fs with
  | nil => simp [download_file]
  | cons o rest ih =>
    have ho := h o (List.mem_cons_self o rest)
    have hrest : ∀ x ∈ rest, x = .err ∨ x = .ok 0 :=
      fun x hx => h x (List.mem_cons_of_mem o hx)
    rcases ho with rfl | rfl
    · obtain ⟨ih1, ih2, ih3, ih4⟩ := ih (fsRemove fs p) hrest
      rw [download_file_cons_err]
      cases rest with
      | nil =>
        refine ⟨rfl, rfl, fun _ => ?_, fun s hs => ?_⟩
        · simpa [download_file] using fsGet_fsRemove_self fs p
        · simp [List.getLast?_singleton] at hs
      | cons r rs =>
        refine ⟨ih1, by simpa using ih2, fun hl => ?_, fun s hs => ?_⟩
        · exact ih3 (by simpa [List.getLast?_cons_cons] using hl)
        · exact ih4 s (by simpa [List.getLast?_cons_cons] using hs)
    · obtain ⟨ih1, ih2, ih3, ih4⟩ := ih (fsSet fs p 0) hrest
      rw [download_file_cons_ok_zero]
      cases rest with
      | nil =>
        refine ⟨rfl, rfl, fun hl => ?_, fun s hs => ?_⟩
        · simp [List.getLast?_singleton] at hl
        · simpa [download_file] using fsGet_fsSet_self fs p 0
      | cons r rs =>
        refine ⟨ih1, by simpa using ih2, fun hl => ?_, fun s hs => ?_⟩
        · exact ih3 (by simpa [List.getLast?_cons_cons] using hl)
        · exact ih4 s (by simpa [List.getLast?_cons_cons] using hs)

/-- Witness for C4: three transport-error attempts yield failure after
exactly three attempts with no file left at the destination. -/
theorem c4_witness :
    (download_file [.err, .err, .err] [] ("d/f.tmp")).1 = false ∧
    (download_file [.err, .err, .err] [] ("d/f.tmp")).2.2 = 3 ∧
    fsGet (download_file [.err, .err, .err] [] ("d/f.tmp")).2.1 ("d/f.tmp") = none := by
  have h := c4_retry_exhaustion [.err, .err, .err] [] ("d/f.tmp") (by decide)
  exact ⟨h.1, by simpa using h.2.1, h.2.2.1 (by decide)⟩

/-- Counterexample to C4 as stated: a source that always completes the
stream with a zero-byte file exhausts all attempts and returns failure, yet
leaves a zero-byte file at the destination (the empty-file retry branch of
`download_file` never unlinks). -/
theorem c4_zero_byte_file_left :
    (download_file [.ok 0, .ok 0, .ok 0] [] ("p")).1 = false ∧
    fsGet (download_file [.ok 0, .ok 0, .ok 0] [] ("p")).2.1 ("p") = some 0 := by
  decide

/-- Claim C6 (amended): for an existing path and a declared nonzero
expected size, `verify_file` passes exactly when the absolute difference
between actual and expected size is at most the 0.2 GB tolerance. -/
theorem c6_tolerance_boundary (fs : FS) (p : String) (s e : ℤ)
    (hs : fsGet fs p = some s) (he : e ≠ 0) :
    (verify_file fs p (some e) = true ↔ absI (s - e) ≤ tolerance) := by
  rw [verify_file_some fs p s (some e) hs]
  simp only [sizeOk]
  rcases le_or_lt (absI (s - e)) tolerance with hle | hgt
  · rw [if_neg]
    · simp [hle]
    · rintro ⟨-, hgt⟩
      exact absurd hgt (not_lt.mpr hle)
  · rw [if_pos ⟨he, hgt⟩]
    constructor
    · intro hh
      exact absurd hh (by simp)
    · intro hle
      exact absurd hle (not_le.mpr hgt)

/-- Witness for C6: with expected size 1.0 GB the verifier passes at
1.2 GB and 0.8 GB and fails at 0.79 GB and 1.21 GB. -/
theorem c6_witness :
    verify_file [(("p"), 1200)] ("p") (some 1000) = true ∧
    verify_file [(("p"), 800)] ("p") (some 1000) = true ∧
    verify_file [(("p"), 790)] ("p") (some 1000) = false ∧
    verify_file [(("p"), 1210)] ("p") (some 1000) = false := by
  refine ⟨?_, by decide, by decide, by decide⟩
  exact (c6_tolerance_boundary [(("p"), 1200)] ("p") 1200 1000 (by decide)
    (by decide)).mpr (by decide)

/-- Counterexample to C6 as stated: a declared expected size of zero is
falsy in the source, so `verify_file` passes even though the size
difference (0.5 GB) exceeds the tolerance. -/
theorem c6_zero_expected_skips_check :
    verify_file [(("p"), 500)] ("p") (some 0) = true ∧
    absI (500 - 0) > tolerance := by
  decide

/-- Claim C7 (amended): when the space preflight passes,
`download_model_category` reports `required_success = false` exactly when at
least one entry with `required = true` ends in a failure branch; optional
failures alone leave it `true`. -/
theorem c7_required_semantics (w : World) (c : Category) (fs : FS)
    (hs : check_disk_space w.freeMGB
      ((c.files.map (fun e => e.size_mgb.getD 0)).sum + 1000) = true) :
    ((download_model_category w c fs).required_success = true ↔
      ∀ p ∈ (download_model_category w c fs).outcomes,
        p.1.required = true → entryFailed p.2.1 = false) := by
  rw [download_model_category_run w c fs hs]
  show (run_entries w c.dir c.files true fs).1 = true ↔
    ∀ p ∈ (run_entries w c.dir c.files true fs).2.2,
      p.1.required = true → entryFailed p.2.1 = false
  rw [run_entries_req]
  simp only [Bool.true_and, List.all_eq_true]
  refine ⟨fun hall p hp hreq => ?_, fun hall p hp => ?_⟩
  · have h1 := hall p hp
    rw [hreq] at h1
    simpa using h1
  · cases hr : p.1.required with
    | false => simp [hr]
    | true => simp [hr, hall p hp hr]

/-- Witness for C7: in a category whose required entry always fails and
whose sibling succeeds, the verdict is `false`; in a category where only an
optional entry fails, the verdict is `true`. -/
theorem c7_witness :
    ((download_model_category mixedWorld mixedCat []).required_success = true ↔
      ∀ p ∈ (download_model_category mixedWorld mixedCat []).outcomes,
        p.1.required = true → entryFailed p.2.1 = false) ∧
    (download_model_category mixedWorld mixedCat []).required_success = false ∧
    (download_model_category mixedWorld optFailCat []).required_success = true := by
  exact ⟨c7_required_semantics mixedWorld mixedCat [] (by decide), by decide, by decide⟩

/-- Counterexample to C7 as stated: when the space preflight fails, the
category reports `required_success = false` although no entry was attempted
at all — in particular no `required = true` entry terminally failed (the
category has none). -/
theorem c7_space_fail_without_required_failure :
    (download_model_category noSpaceWorld optOnlyCat []).required_success = false ∧
    (download_model_category noSpaceWorld optOnlyCat []).outcomes = [] ∧
    optOnlyCat.files.all (fun e => !e.required) = true := by
  decide

/-- Claim C8 (amended): when the global space preflight passes,
`download_all_models` returns `true` exactly when every category's recorded
`required_success` verdict is `true` (the conjunction over categories). -/
theorem c8_overall_conjunction (w : World) (cats : List Category) (fs : FS)
    (hs : check_disk_space w.freeMGB
      ((cats.map (fun c => (c.files.map (fun e => e.size_mgb.getD 0)).sum)).sum + 2000)
        = true) :
    ((download_all_models w cats fs).1 = true ↔
      ∀ b ∈ (download_all_models w cats fs).2.2, b = true) := by
  rw [download_all_models_run w cats fs hs]
  rw [run_categories_conj]
  simp [List.all_eq_true]

/-- Witness for C8: a catalog whose first category fails its required entry
and whose second succeeds records the verdicts `[false, true]` and reports
overall failure, consistent with the conjunction. -/
theorem c8_witness :
    ((download_all_models mixedWorld twoCats []).1 = true ↔
      ∀ b ∈ (download_all_models mixedWorld twoCats []).2.2, b = true) ∧
    (download_all_models mixedWorld twoCats []).2.2 = [false, true] ∧
    (download_all_models mixedWorld twoCats []).1 = false := by
  exact ⟨c8_overall_conjunction mixedWorld twoCats [] (by decide), by decide, by decide⟩

/-- Counterexample to C8 as stated: with insufficient free space the batch
reports overall failure while the conjunction over (zero recorded)
categories is vacuously true. -/
theorem c8_space_fail_empty_catalog :
    (download_all_models noSpaceWorld [] []).1 = false ∧
    (download_all_models noSpaceWorld [] []).2.2 = [] := by
  decide

/-- Claim C9: when the space preflight passes, every entry of the category
is attempted and recorded, in order, regardless of any sibling's failure
(the recorded outcomes project back onto the full entry list). -/
theorem c9_all_entries_attempted (w : World) (c : Category) (fs : FS)
    (hs : check_disk_space w.freeMGB
      ((c.files.map (fun e => e.size_mgb.getD 0)).sum + 1000) = true) :
    (download_model_category w c fs).outcomes.map Prod.fst = c.files := by
  rw [download_model_category_run w c fs hs]
  exact run_entries_map_fst w c.dir c.files true fs

/-- Witness for C9: with one always-failing and one always-succeeding entry
both entries are attempted; the report records the first as failed and the
second as succeeded, and the successful entry's final artifact exists and
verifies. -/
theorem c9_witness :
    (download_model_category mixedWorld mixedCat []).outcomes.map Prod.fst
      = mixedCat.files ∧
    (download_model_category mixedWorld mixedCat []).outcomes
      = [(badReqEntry, .failDownload, 3), (goodReqEntry, .okDownloaded, 1)] ∧
    fsGet (download_model_category mixedWorld mixedCat []).fs ("d/b.pt") = some 500 ∧
    verify_file (download_model_category mixedWorld mixedCat []).fs ("d/b.pt")
      (some 500) = true := by
  exact ⟨c9_all_entries_attempted mixedWorld mixedCat [] (by decide),
    by decide, by decide, by decide⟩

/-- Claim C10: for an entry whose download succeeded and verified at the
temporary path, the temporary archive is deleted exactly when extraction
succeeds: on extraction success the entry ends `okExtracted` with no file
left at the temporary path; on extraction failure the entry ends
`failExtract` with the filesystem — in particular the archive at the
temporary path — unchanged; and a non-extract entry is instead renamed from
the temporary path to the final path. -/
theorem c10_temp_promotion (w : World) (d : String) (e : FileEntry) (fs : FS)
    (hnv : verify_file fs (d ++ ("/") ++ e.filename) e.size_mgb = false)
    (hdl : (download_file (w.net e.url) fs (d ++ ("/") ++ tempName e.filename)).1 = true)
    (hv : verify_file
      (download_file (w.net e.url) fs (d ++ ("/") ++ tempName e.filename)).2.1
      (d ++ ("/") ++ tempName e.filename) e.size_mgb = true) :
    (e.extract = true →
      ((extract_archive (w.archive e.url) (tempName e.filename) d
          (download_file (w.net e.url) fs (d ++ ("/") ++ tempName e.filename)).2.1).ok
            = true →
        (process_entry w d e fs).1 = .okExtracted ∧
        fsGet (process_entry w d e fs).2.1 (d ++ ("/") ++ tempName e.filename) = none) ∧
      ((extract_archive (w.archive e.url) (tempName e.filename) d
          (download_file (w.net e.url) fs (d ++ ("/") ++ tempName e.filename)).2.1).ok
            = false →
        (process_entry w d e fs).1 = .failExtract ∧
        (process_entry w d e fs).2.1 =
          (download_file (w.net e.url) fs (d ++ ("/") ++ tempName e.filename)).2.1)) ∧
    (e.extract = false →
      (process_entry w d e fs).1 = .okDownloaded ∧
      fsGet (process_entry w d e fs).2.1 (d ++ ("/") ++ tempName e.filename) = none ∧
      fsGet (process_entry w d e fs).2.1 (d ++ ("/") ++ e.filename) =
        fsGet (download_file (w.net e.url) fs (d ++ ("/") ++ tempName e.filename)).2.1
          (d ++ ("/") ++ tempName e.filename)) := by
  refine ⟨fun hx => ⟨fun hok => ?_, fun hnok => ?_⟩, fun hx => ?_⟩
  · have hr : process_entry w d e fs =
        (.okExtracted,
         fsRemove (extract_archive (w.archive e.url) (tempName e.filename) d
           (download_file (w.net e.url) fs (d ++ ("/") ++ tempName e.filename)).2.1).fs
           (d ++ ("/") ++ tempName e.filename),
         (download_file (w.net e.url) fs (d ++ ("/") ++ tempName e.filename)).2.2) := by
      simp [process_entry, hnv, hdl, hv, hx, hok]
    rw [hr]
    exact ⟨rfl, fsGet_fsRemove_self _ _⟩
  · have hr : process_entry w d e fs =
        (.failExtract,
         (extract_archive (w.archive e.url) (tempName e.filename) d
           (download_file (w.net e.url) fs (d ++ ("/") ++ tempName e.filename)).2.1).fs,
         (download_file (w.net e.url) fs (d ++ ("/") ++ tempName e.filename)).2.2) := by
      simp [process_entry, hnv, hdl, hv, hx, hnok]
    rw [hr]
    exact ⟨rfl, extract_archive_fail_fs _ _ _ _ hnok⟩
  · obtain ⟨s, hsget, hsz⟩ := (verify_file_iff _ _ _).mp hv
    have hr : process_entry w d e fs =
        (.okDownloaded,
         fsRename (download_file (w.net e.url) fs (d ++ ("/") ++ tempName e.filename)).2.1
           (d ++ ("/") ++ tempName e.filename) (d ++ ("/") ++ e.filename),
         (download_file (w.net e.url) fs (d ++ ("/") ++ tempName e.filename)).2.2) := by
      simp [process_entry, hnv, hdl, hv, hx]
    rw [hr]
    refine ⟨rfl, ?_, ?_⟩
    · show fsGet (fsRename _ _ _) _ = none
      unfold fsRename
      rw [hsget]
      rw [fsGet_fsSet_ne _ _ _ _ (Ne.symm (tempPath_ne_filePath d e.filename))]
      exact fsGet_fsRemove_self _ _
    · show fsGet (fsRename _ _ _) _ = _
      rw [fsGet_fsRename_dst _ _ _ _ hsget, hsget]

/-- Witness for C10: the extract-success branch at a concrete entry whose
temporary name `params.tar.tmp` dispatches to the tar branch — the entry
ends `okExtracted` and the temporary archive is gone. -/
theorem c10_witness :
    (process_entry c3world ("d") c3entry []).1 = .okExtracted ∧
    fsGet (process_entry c3world ("d") c3entry []).2.1
      (("d") ++ ("/") ++ tempName c3entry.filename) = none := by
  have h := c10_temp_promotion c3world ("d") c3entry [] (by decide) (by decide) (by decide)
  exact (h.1 rfl).1 (by decide)

/-- Claim C5 (amended): an entry is reported successful only when the file
that was actually verified exists with a size passing the declared-size
check: the skip path verified the final path in the pre-existing
filesystem; the fresh non-extract path leaves a non-empty verified file at
the final path; the fresh extract path verified the non-empty downloaded
archive at the temporary path.  (Non-emptiness holds for freshly downloaded
files because `download_file` only succeeds on a positive size; the skip
path checks only existence and the size tolerance.) -/
theorem c5_success_requires_verification (w : World) (d : String) (e : FileEntry)
    (fs : FS) :
    ((process_entry w d e fs).1 = .okExists →
      ∃ s, fsGet fs (d ++ ("/") ++ e.filename) = some s ∧ sizeOk s e.size_mgb = true) ∧
    ((process_entry w d e fs).1 = .okDownloaded →
      ∃ s, fsGet (process_entry w d e fs).2.1 (d ++ ("/") ++ e.filename) = some s ∧
        0 < s ∧ sizeOk s e.size_mgb = true) ∧
    ((process_entry w d e fs).1 = .okExtracted →
      ∃ s, fsGet (download_file (w.net e.url) fs (d ++ ("/") ++ tempName e.filename)).2.1
          (d ++ ("/") ++ tempName e.filename) = some s ∧
        0 < s ∧ sizeOk s e.size_mgb = true) := by
  by_cases h1 : verify_file fs (d ++ ("/") ++ e.filename) e.size_mgb = true
  · obtain ⟨s, hsget, hsz⟩ := (verify_file_iff _ _ _).mp h1
    refine ⟨fun _ => ⟨s, hsget, hsz⟩, fun hc => ?_, fun hc => ?_⟩ <;>
      simp [process_entry, h1] at hc
  · by_cases h2 : (download_file (w.net e.url) fs
        (d ++ ("/") ++ tempName e.filename)).1 = true
    · by_cases h3 : verify_file
          (download_file (w.net e.url) fs (d ++ ("/") ++ tempName e.filename)).2.1
          (d ++ ("/") ++ tempName e.filename) e.size_mgb = true
      · obtain ⟨s, hsget, hsz⟩ := (verify_file_iff _ _ _).mp h3
        obtain ⟨s', hs'pos, hs'get⟩ := download_file_success _ _ _ h2
        have hss : s = s' := by
          rw [hsget] at hs'get
          exact (Option.some.injEq _ _).mp hs'get
        subst hss
        by_cases h4 : e.extract = true
        · by_cases h5 : (extract_archive (w.archive e.url) (tempName e.filename) d
              (download_file (w.net e.url) fs
                (d ++ ("/") ++ tempName e.filename)).2.1).ok = true
          · refine ⟨fun hc => ?_, fun hc => ?_, fun _ => ⟨s, hsget, hs'pos, hsz⟩⟩ <;>
              simp [process_entry, h1, h2, h3, h4, h5] at hc
          · refine ⟨fun hc => ?_, fun hc => ?_, fun hc => ?_⟩ <;>
              simp [process_entry, h1, h2, h3, h4, h5] at hc
        · have hr : process_entry w d e fs =
              (.okDownloaded,
               fsRename (download_file (w.net e.url) fs
                   (d ++ ("/") ++ tempName e.filename)).2.1
                 (d ++ ("/") ++ tempName e.filename) (d ++ ("/") ++ e.filename),
               (download_file (w.net e.url) fs
                 (d ++ ("/") ++ tempName e.filename)).2.2) := by
            simp [process_entry, h1, h2, h3, h4]
          rw [hr]
          refine ⟨fun hc => by simp at hc, fun _ => ?_, fun hc => by simp at hc⟩
          exact ⟨s, fsGet_fsRename_dst _ _ _ _ hsget, hs'pos, hsz⟩
      · refine ⟨fun hc => ?_, fun hc => ?_, fun hc => ?_⟩ <;>
          simp [process_entry, h1, h2, h3] at hc
    · refine ⟨fun hc => ?_, fun hc => ?_, fun hc => ?_⟩ <;>
        simp [process_entry, h1, h2] at hc

/-- Witness for C5: a fresh successful non-extract download ends
`okDownloaded` with a non-empty verified file at the final path. -/
theorem c5_witness :
    (process_entry goodWorld ("d") plainEntry []).1 = .okDownloaded ∧
    ∃ s, fsGet (process_entry goodWorld ("d") plainEntry []).2.1
        (("d") ++ ("/") ++ plainEntry.filename) = some s ∧
      0 < s ∧ sizeOk s plainEntry.size_mgb = true := by
  exact ⟨by decide,
    (c5_success_requires_verification goodWorld ("d") plainEntry []).2.1 (by decide)⟩

/-- Counterexample to C5 as stated: a pre-existing zero-byte file with no
declared expected size is reported successful by the skip path
(`okExists`), violating the claim's unconditional "non-empty"
requirement. -/
theorem c5_empty_file_reported_valid :
    (process_entry goodWorld ("d") noSizeEntry [(("d/model.pt"), 0)]).1 = .okExists ∧
    fsGet [(("d/model.pt"), 0)] ("d/model.pt") = some 0 := by
  decide

/-- Claim C3 (amended): for a category whose space preflight passes, whose
entries are all not marked extract, and whose entry names do not collide
(no two final names equal, no final name equal to another entry's temporary
name), a first run in which every entry ends successfully makes the second
run, over unchanged network and disk state, perform zero downloads: every
final path already verifies, so every entry is skipped (`okExists`) with
zero download attempts, the filesystem is untouched, and the verdict is
true.  Extract-marked entries carry no such guarantee (see the
counterexample): extraction deletes the temporary archive and need not
create a verified file at the final path. -/
theorem c3_second_run_zero_downloads (w : World) (c : Category) (fs : FS)
    (hs : check_disk_space w.freeMGB
      ((c.files.map (fun e => e.size_mgb.getD 0)).sum + 1000) = true)
    (hx : ∀ e ∈ c.files, e.extract = false)
    (hdisj : c.files.Pairwise
      (fun a b => b.filename ≠ a.filename ∧ tempName b.filename ≠ a.filename))
    (hok : ∀ p ∈ (download_model_category w c fs).outcomes,
      entryFailed p.2.1 = false) :
    download_model_category w c (download_model_category w c fs).fs =
      ⟨true, (download_model_category w c fs).fs,
       c.files.map (fun e => (e, .okExists, 0))⟩ := by
  have h1 := download_model_category_run w c fs hs
  have hok' : ∀ p ∈ (run_entries w c.dir c.files true fs).2.2,
      entryFailed p.2.1 = false := by
    intro p hp
    refine hok p ?_
    rw [h1]
    exact hp
  have hver := run_entries_verified w c.dir c.files true fs hx hdisj hok'
  have hfs2 : (download_model_category w c fs).fs =
      (run_entries w c.dir c.files true fs).2.1 := by rw [h1]
  rw [hfs2, download_model_category_run w c _ hs,
    run_entries_all_skip w c.dir c.files true _ hver]

/-- Witness for C3: a single plain-entry category freshly downloaded on the
first run is skipped entirely by the second run — same filesystem, verdict
true, and the sole outcome `okExists` with zero download attempts. -/
theorem c3_witness :
    (download_model_category goodWorld plainCat []).outcomes
      = [(plainEntry, .okDownloaded, 1)] ∧
    download_model_category goodWorld plainCat
        (download_model_category goodWorld plainCat []).fs =
      ⟨true, (download_model_category goodWorld plainCat []).fs,
       plainCat.files.map (fun e => (e, .okExists, 0))⟩ := by
  refine ⟨by decide, c3_second_run_zero_downloads goodWorld plainCat [] (by decide)
    (by decide) ?_ (by decide)⟩
  exact List.Pairwise.cons (fun b hb => ((List.not_mem_nil b) hb).elim)
    List.Pairwise.nil

/-- Counterexample to C3 as stated: a catalog whose single entry is marked
extract.  The first run succeeds completely (one download attempt,
extraction succeeds, archive deleted), yet the second run over unchanged
network and disk state downloads the entry again (one attempt instead of
zero): extraction never produced the final path `d/params.tar`, so its
verification cannot pass on the second run. -/
theorem c3_second_run_redownloads :
    (download_model_category c3world c3cat []).required_success = true ∧
    (download_model_category c3world c3cat []).outcomes = [(c3entry, .okExtracted, 1)] ∧
    (download_model_category c3world c3cat
        (download_model_category c3world c3cat []).fs).outcomes
      = [(c3entry, .okExtracted, 1)] := by
  decide

end ModelDownloader
